import Mathlib

/-
  Verification of the claude-watch command authorization engine.

  Shallow embedding of the PreToolUse permission hook (tree-sitter based
  version) and the NotifierServer approval queue. Shell commands and
  patterns are modelled as Lean strings (lists of characters); the
  JavaScript regular expressions used by the hook are embedded as
  executable character-list functions with the same semantics on the
  regex sublanguage the hook actually constructs.
-/

namespace ClaudeWatch

/-! ### Character classes used by the JavaScript regexes -/

/-- The characters matched by the JavaScript regex class backslash-s
(the forms that can occur in command text). -/
def jsSpace (c : Char) : Bool :=
  c == ' ' || c == '\t' || c == '\n' || c == '\r' || c == '\x0b' || c == '\x0c'

/-- The characters matched by the JavaScript regex class backslash-w. -/
def isWordChar (c : Char) : Bool :=
  c.isAlphanum || c == '_'

/-- JavaScript line terminators: a dot in a regex matches any character
except these. -/
def isLineTerminator (c : Char) : Bool :=
  c == '\n' || c == '\r' || c == '\u2028' || c == '\u2029'

/-! ### stripLeadingEnvVars

Embeds the hook function

  command.replace(regex for one-or-more of name equals value then spaces, empty)

where a value is single-quoted, double-quoted with backslash escapes, or a
run of non-space characters, and each assignment must be followed by at
least one whitespace character. -/

/-- Single-quoted value alternative: a quote, a run of non-quote
characters, a closing quote. Returns the remainder after the value. -/
def sqValue : List Char → Option (List Char)
  | '\'' :: rest =>
    match rest.dropWhile (fun c => !(c == '\'')) with
    | '\'' :: r => some r
    | _ => none
  | _ => none

/-- Scan the body of a double-quoted value: non-quote non-backslash
characters or backslash followed by any non-line-terminator, up to the
closing quote. Returns the remainder after the closing quote. -/
def dqScan : List Char → Option (List Char)
  | [] => none
  | '"' :: rest => some rest
  | '\\' :: c :: rest => if isLineTerminator c then none else dqScan rest
  | '\\' :: [] => none
  | _ :: rest => dqScan rest

/-- Double-quoted value alternative. -/
def dqValue : List Char → Option (List Char)
  | '"' :: rest => dqScan rest
  | _ => none

/-- After a value candidate, the regex requires one or more whitespace
characters; the greedy run is consumed entirely. -/
def spacesAfterValue : List Char → Option (List Char)
  | c :: rr => if jsSpace c then some (rr.dropWhile jsSpace) else none
  | [] => none

/-- Match one name-equals-value assignment followed by whitespace,
with the same alternative order and backtracking behaviour as the
JavaScript regex: quoted forms are preferred, falling back to a bare run
of non-space characters when the quoted form is absent or not followed
by whitespace. -/
def matchAssignment (s : List Char) : Option (List Char) :=
  let name := s.takeWhile isWordChar
  if name.isEmpty then none
  else
    match s.dropWhile isWordChar with
    | '=' :: rest2 =>
      match (sqValue rest2).bind spacesAfterValue with
      | some r => some r
      | none =>
        match (dqValue rest2).bind spacesAfterValue with
        | some r => some r
        | none => spacesAfterValue (rest2.dropWhile (fun c => !(jsSpace c)))
    | _ => none

/-- Strip assignments repeatedly (the one-or-more repetition of the
regex). Each successful repetition consumes at least three characters,
so fuel equal to the input length suffices. -/
def stripLoop : Nat → List Char → List Char
  | 0, s => s
  | n + 1, s =>
    match matchAssignment s with
    | none => s
    | some rest => stripLoop n rest

/-- Embeds stripLeadingEnvVars from the hook: remove a leading run of
environment-variable assignments from a command line. -/
def stripLeadingEnvVars (command : String) : String :=
  ⟨stripLoop command.data.length command.data⟩

/-- The matcher normalization, embedding the hook line
`const cmd = stripLeadingEnvVars(command) || command`: the env-stripped
command, falling back to the original text when stripping leaves the
empty string (a pure assignment line). -/
def normalizeCommand (command : String) : String :=
  let s := stripLeadingEnvVars command
  if s.isEmpty then command else s

/-! ### The glob branch: embedded JavaScript RegExp

matchesSingleCommand builds `new RegExp('^' + escaped + '$')` where
`escaped` is the pattern with the characters . + ^ $ ( ) | [ ] braces and
backslash escaped and runs of stars collapsed to dot-star. We embed the
construction literally (escape, collapse) and give the resulting regex
source an executable semantics. On the sublanguage these constructions
produce, the only regex operators are escaped literals, dot-star, an
unescaped question mark acting as a quantifier, and lazy-quantifier
forms; an invalid quantifier position is a construction error (the
JavaScript code would throw), modelled as a failed lex, treated as a
non-match. -/

/-- The escape set of the hook source: the regex metacharacters it
escapes. Note that the question mark is NOT in this set. -/
def isRegexMeta (c : Char) : Bool :=
  c == '.' || c == '+' || c == '^' || c == '$' || c == '\x7b' || c == '\x7d' ||
  c == '(' || c == ')' || c == '|' || c == '[' || c == ']' || c == '\\'

/-- Embeds the first replace: escape each metacharacter with a backslash. -/
def escapeRegexChars : List Char → List Char
  | [] => []
  | c :: rest =>
    if isRegexMeta c then '\\' :: c :: escapeRegexChars rest
    else c :: escapeRegexChars rest

/-- Worker for collapseStars: the flag records whether the previous
character was a star (in which case further stars of the same run are
dropped). -/
def collapseStarsAux : Bool → List Char → List Char
  | _, [] => []
  | prevStar, c :: rest =>
    if c == '*' then
      if prevStar then collapseStarsAux true rest
      else '.' :: '*' :: collapseStarsAux true rest
    else c :: collapseStarsAux false rest

/-- Embeds the second replace: collapse each run of stars into dot-star. -/
def collapseStars (l : List Char) : List Char :=
  collapseStarsAux false l

/-- An atom of the embedded regex sublanguage: a literal character or
the any-character dot. -/
inductive RAtom where
  | lit (c : Char)
  | anyc
deriving DecidableEq

/-- An item of the embedded regex sublanguage: an atom, an optional
atom (question-mark quantifier, greedy or lazy) or a starred atom
(greedy or lazy). -/
inductive RItem where
  | once (a : RAtom)
  | optGreedy (a : RAtom)
  | optLazy (a : RAtom)
  | star (a : RAtom)
  | starLazy (a : RAtom)
deriving DecidableEq

/-- Apply a question-mark quantifier to the most recent item: an atom
becomes optional, a greedy quantifier becomes lazy, and a lazy
quantifier admits no further quantifier (a construction error). -/
def applyQuestion : List RItem → Option (List RItem)
  | .once a :: acc => some (.optGreedy a :: acc)
  | .optGreedy a :: acc => some (.optLazy a :: acc)
  | .star a :: acc => some (.starLazy a :: acc)
  | _ => none

/-- Apply a star quantifier to the most recent item; only a plain atom
can be starred. -/
def applyStar : List RItem → Option (List RItem)
  | .once a :: acc => some (.star a :: acc)
  | _ => none

/-- Lex the constructed regex source (the part between the anchors)
into items. The accumulator holds the items read so far in reverse. -/
def lexRegex : List Char → List RItem → Option (List RItem)
  | [], acc => some acc.reverse
  | c :: rest, acc =>
    if c == '\\' then
      match rest with
      | [] => none
      | d :: rest2 => lexRegex rest2 (.once (.lit d) :: acc)
    else if c == '?' then (applyQuestion acc).bind (fun acc2 => lexRegex rest acc2)
    else if c == '*' then (applyStar acc).bind (fun acc2 => lexRegex rest acc2)
    else if c == '.' then lexRegex rest (.once .anyc :: acc)
    else lexRegex rest (.once (.lit c) :: acc)

/-- Does an atom match one character. -/
def amatch : RAtom → Char → Bool
  | .lit c, d => c == d
  | .anyc, d => !(isLineTerminator d)

/-- Worker for rmatch: anchored matching of an item list against a
character list. Every recursive call strictly decreases the combined
length of the two lists, so fuel equal to that sum plus one makes the
worker total without changing its value. -/
def rmatchFuel : Nat → List RItem → List Char → Bool
  | 0, _, _ => false
  | _ + 1, [], [] => true
  | _ + 1, [], _ :: _ => false
  | _ + 1, .once _ :: _, [] => false
  | n + 1, .once a :: rs, d :: ds => amatch a d && rmatchFuel n rs ds
  | n + 1, .optGreedy _ :: rs, [] => rmatchFuel n rs []
  | n + 1, .optGreedy a :: rs, d :: ds =>
    (amatch a d && rmatchFuel n rs ds) || rmatchFuel n rs (d :: ds)
  | n + 1, .optLazy _ :: rs, [] => rmatchFuel n rs []
  | n + 1, .optLazy a :: rs, d :: ds =>
    rmatchFuel n rs (d :: ds) || (amatch a d && rmatchFuel n rs ds)
  | n + 1, .star _ :: rs, [] => rmatchFuel n rs []
  | n + 1, .star a :: rs, d :: ds =>
    (amatch a d && rmatchFuel n (.star a :: rs) ds) || rmatchFuel n rs (d :: ds)
  | n + 1, .starLazy _ :: rs, [] => rmatchFuel n rs []
  | n + 1, .starLazy a :: rs, d :: ds =>
    rmatchFuel n rs (d :: ds) || (amatch a d && rmatchFuel n (.starLazy a :: rs) ds)

/-- Does an item list match a character list exactly (the regex is
anchored at both ends). Greedy and lazy quantifiers differ only in
preference order, which cannot change whether a match exists. -/
def rmatch (rs : List RItem) (s : List Char) : Bool :=
  rmatchFuel (rs.length + s.length + 1) rs s

/-- Embeds the glob branch of matchesSingleCommand: build the regex from
the pattern with the source escapes, then test the command against it. -/
def globTest (pat cmd : List Char) : Bool :=
  match lexRegex (collapseStars (escapeRegexChars pat)) [] with
  | some items => rmatch items cmd
  | none => false

/-- Does one (already normalized) command match one pattern: the
prefix-colon-star rule, then the glob rule, then the exact rule, in the
order of the hook source. -/
def matchesOnePattern (cmd pat : List Char) : Bool :=
  if ([':', '*'] : List Char).isSuffixOf pat then
    let pre := pat.dropLast.dropLast
    cmd == pre || (pre ++ [' ']).isPrefixOf cmd || (pre ++ ['\t']).isPrefixOf cmd
  else if pat.contains '*' then
    globTest pat cmd
  else
    cmd == pat || (pat ++ [' ']).isPrefixOf cmd

/-- Embeds matchesSingleCommand from the hook: strip leading
environment-variable assignments (falling back to the original text when
everything is stripped), then test the pattern list in order; any
matching pattern suffices. -/
def matchesSingleCommand (command : String) (patterns : List String) : Bool :=
  let cmd := normalizeCommand command
  patterns.any (fun p => matchesOnePattern cmd.data p.data)

/-! ### Shell parser: AST walk

The hook parses the command with the external tree-sitter-bash grammar
and walks the resulting tree. The tree type below models the tree-sitter
node interface used by the hook (type, named flag, field name within the
parent, source text, children in order). The walk itself translates
extractCommandsFromAST from the hook source; the parser producing the
tree is an external library, modelled as an abstract function from the
command text to a root node and an error flag. -/

/-- A tree-sitter syntax node as consumed by the hook. -/
inductive TSNode where
  | node (type : String) (isNamed : Bool) (fieldName : Option String)
      (text : String) (children : List TSNode)

/-- The node type. -/
def TSNode.type : TSNode → String
  | .node t _ _ _ _ => t

/-- Whether the node is a named grammar node. -/
def TSNode.isNamed : TSNode → Bool
  | .node _ b _ _ _ => b

/-- The field name of this node within its parent, when any. -/
def TSNode.fieldName : TSNode → Option String
  | .node _ _ f _ _ => f

/-- The source text spanned by the node. -/
def TSNode.text : TSNode → String
  | .node _ _ _ t _ => t

/-- The children of the node, in order, anonymous nodes included. -/
def TSNode.children : TSNode → List TSNode
  | .node _ _ _ _ cs => cs

mutual
/-- Embeds hasVariableExpansion: does the node contain a simple_expansion
or expansion node anywhere. -/
def hasVariableExpansion : TSNode → Bool
  | .node ty _ _ _ children =>
    ty == "simple_expansion" || ty == "expansion" || hasVariableExpansionList children

/-- List form of hasVariableExpansion. -/
def hasVariableExpansionList : List TSNode → Bool
  | [] => false
  | n :: rest => hasVariableExpansion n || hasVariableExpansionList rest
end

mutual
/-- Embeds the walk function inside extractCommandsFromAST. Returns the
collected command texts in order and the unresolvable flag. -/
def walkNode : TSNode → List String × Bool
  | .node ty _ _ text children =>
    if ty == "command" then
      let nameNode := children.find? (fun c => c.fieldName == some "name")
      let selfPart : List String × Bool :=
        match nameNode with
        | some nn =>
          let unres := hasVariableExpansion nn
          let hasAssign :=
            (children.filter (fun c => c.isNamed)).any
              (fun c => c.type == "variable_assignment")
          let txt :=
            if hasAssign then
              String.intercalate " "
                ((children.filter (fun c => !(c.type == "variable_assignment"))).map
                  (fun c => c.text))
            else text
          ([txt], unres)
        | none =>
          let named := children.filter (fun c => c.isNamed)
          let hasArgs :=
            decide (0 < named.length) &&
              named.any (fun c => !(c.type == "variable_assignment"))
          ((if hasArgs then [text] else []), false)
      let rest := walkChildren true children
      (selfPart.1 ++ rest.1, selfPart.2 || rest.2)
    else if ty == "variable_assignment" then
      walkValueChild children
    else if ty == "declaration_command" then
      walkChildren false children
    else
      walkChildren false children

/-- Walk a child list; when the flag is set, children of type
command_name are skipped (the command case of the source walk). -/
def walkChildren : Bool → List TSNode → List String × Bool
  | _, [] => ([], false)
  | skipCN, n :: rest =>
    let a :=
      if skipCN && n.type == "command_name" then (([] : List String), false)
      else walkNode n
    let b := walkChildren skipCN rest
    (a.1 ++ b.1, a.2 || b.2)

/-- Walk only the first child carrying the field name value (the
variable_assignment case of the source walk). -/
def walkValueChild : List TSNode → List String × Bool
  | [] => ([], false)
  | n :: rest =>
    if n.fieldName == some "value" then walkNode n else walkValueChild rest
end

/-- The result of sub-command extraction: the ordered list of collected
sub-commands and the unresolvable flag. -/
structure ExtractionResult where
  commands : List String
  hasUnresolvable : Bool
deriving DecidableEq

/-- Embeds extractCommandsFromAST: walk the root node. -/
def extractCommandsFromAST (root : TSNode) : ExtractionResult :=
  let w := walkNode root
  ⟨w.1, w.2⟩

/-- The external tree-sitter parser, abstracted: given the command text
it yields the root node and whether the tree contains an error node. -/
def BashParse : Type := String → TSNode × Bool

/-- Embeds parseAndExtractCommands: with no parser available, the whole
input is one opaque sub-command with the unresolvable flag forced true;
otherwise parse, walk, and force the unresolvable flag on a grammar
error. -/
def parseAndExtractCommands (pr : Option BashParse) (command : String) :
    ExtractionResult :=
  match pr with
  | none => ⟨[command], true⟩
  | some parse =>
    let t := parse command
    let r := extractCommandsFromAST t.1
    if t.2 then ⟨r.commands, true⟩ else r

/-! ### matchesCommandPattern and the resolver flow of main -/

/-- The matching mode: all (allow lists) or any (deny and ask lists). -/
inductive MatchMode where
  | all
  | any
deriving DecidableEq

/-- Embeds matchesCommandPattern: extract the sub-commands, return false
on an empty extraction, refuse to match in all mode when the extraction
is unresolvable, then test every (all) or some (any) sub-command. -/
def matchesCommandPattern (pr : Option BashParse) (command : String)
    (patterns : List String) (mode : MatchMode) : Bool :=
  let r := parseAndExtractCommands pr command
  if r.commands.isEmpty then false
  else
    match mode with
    | .any => r.commands.any (fun c => matchesSingleCommand c patterns)
    | .all =>
      if r.hasUnresolvable then false
      else r.commands.all (fun c => matchesSingleCommand c patterns)

/-- Embeds extractUnmatchedCommands: the extracted sub-commands that do
not match the allow patterns, together with the unresolvable flag. -/
def extractUnmatchedCommands (pr : Option BashParse) (command : String)
    (allowPatterns : List String) : List String × Bool :=
  let r := parseAndExtractCommands pr command
  (r.commands.filter (fun c => !(matchesSingleCommand c allowPatterns)),
   r.hasUnresolvable)

/-- The verdict of the Bash decision flow of main. -/
inductive Verdict where
  | autoAllow
  | autoDeny
  | needsApproval (unmatched : List String) (hasUnresolvable : Bool)
      (isAskListed : Bool)
deriving DecidableEq

/-- Embeds the Bash decision flow of main (deny, then ask, then allow,
then the unmatched-commands shortcut): deny in any mode denies at once;
the allow list is evaluated in all mode only when the command is not
ask-listed; if the shortcut finds no unmatched sub-command, no
unresolvable construct, and no ask match, the command is auto-allowed;
otherwise it proceeds to human approval carrying the unmatched detail
and the ask flag. -/
def resolveBashPermission (pr : Option BashParse) (command : String)
    (deny ask allow : List String) : Verdict :=
  if matchesCommandPattern pr command deny .any then .autoDeny
  else
    let isAskListed := matchesCommandPattern pr command ask .any
    let isAllowed :=
      if isAskListed then false
      else matchesCommandPattern pr command allow .all
    if isAllowed then .autoAllow
    else
      let u := extractUnmatchedCommands pr command allow
      if !isAskListed && u.1.isEmpty && !u.2 then .autoAllow
      else .needsApproval u.1 u.2 isAskListed

/-! ### Policy store: loadPermissionSettings

The three settings files (user-global, project-shared settings.json,
project-local settings.local.json) are modelled as optional parsed
values: none stands for a missing, unreadable or malformed file, and
both project entries are none when findProjectRoot finds no project
marker directory. -/

/-- A parsed permission list split into Bash command patterns and plain
tool-name patterns. -/
structure PermissionList where
  bashPatterns : List String
  toolPatterns : List String
deriving DecidableEq

/-- Embeds parsePermissionList: entries of the form Bash(pattern) become
Bash patterns (the inner text), all other entries are tool patterns. -/
def parsePermissionList (entries : List String) : PermissionList :=
  entries.foldl
    (fun acc entry =>
      if entry.startsWith "Bash(" && entry.endsWith ")" then
        { acc with bashPatterns := acc.bashPatterns ++ [(entry.drop 5).dropRight 1] }
      else
        { acc with toolPatterns := acc.toolPatterns ++ [entry] })
    ⟨[], []⟩

/-- Embeds mergePermissionLists. -/
def mergePermissionLists (a b : PermissionList) : PermissionList :=
  ⟨a.bashPatterns ++ b.bashPatterns, a.toolPatterns ++ b.toolPatterns⟩

/-- The permissions object of a settings file; each list is present or
absent, and defaultMode is an optional string. -/
structure SettingsPermissions where
  allow : Option (List String)
  deny : Option (List String)
  ask : Option (List String)
  defaultMode : Option String

/-- A parsed settings file: the optional top-level bypassPermissions
value and the optional permissions object. -/
structure SettingsFile where
  bypassPermissions : Option Bool
  permissions : Option SettingsPermissions

/-- Embeds isBypassPermissions: top-level bypassPermissions strictly
equal to true, or permissions.defaultMode equal to bypassPermissions. -/
def isBypassPermissions (s : SettingsFile) : Bool :=
  s.bypassPermissions == some true ||
    (match s.permissions with
     | some p => p.defaultMode == some "bypassPermissions"
     | none => false)

/-- The merged policy built by loadPermissionSettings. -/
structure MergedPolicy where
  allow : PermissionList
  deny : PermissionList
  ask : PermissionList
  bypassPermissions : Bool

/-- Merge the allow, deny and ask lists of one settings file into the
accumulated policy (the per-layer loop body of loadPermissionSettings).
The bypass flag is never touched here. -/
def mergeLayer (current : MergedPolicy) (s : SettingsFile) : MergedPolicy :=
  match s.permissions with
  | none => current
  | some p =>
    let r1 :=
      match p.allow with
      | some l => { current with allow := mergePermissionLists current.allow (parsePermissionList l) }
      | none => current
    let r2 :=
      match p.deny with
      | some l => { r1 with deny := mergePermissionLists r1.deny (parsePermissionList l) }
      | none => r1
    match p.ask with
    | some l => { r2 with ask := mergePermissionLists r2.ask (parsePermissionList l) }
    | none => r2

/-- Embeds loadPermissionSettings: merge the global file, then the
project-shared file, then the project-local file. Only the global and
project-local files are consulted for the bypass flag; the
project-shared file contributes lists only. -/
def loadPermissionSettings (globalS projectS localS : Option SettingsFile) :
    MergedPolicy :=
  let r0 : MergedPolicy := ⟨⟨[], []⟩, ⟨[], []⟩, ⟨[], []⟩, false⟩
  let r1 :=
    match globalS with
    | none => r0
    | some g =>
      let rb := if isBypassPermissions g then { r0 with bypassPermissions := true } else r0
      mergeLayer rb g
  let r2 :=
    match projectS with
    | none => r1
    | some p => mergeLayer r1 p
  match localS with
  | none => r2
  | some l =>
    let rb := if isBypassPermissions l then { r2 with bypassPermissions := true } else r2
    mergeLayer rb l

/-! ### NotifierServer: approval queue and timers

The queue coordinator is modelled as a state machine. A queue item
records its id and creation time; the five-minute timer of an item is
represented by the timerExpire operation, which is the body of the
setTimeout callback registered by handlePermission (a cleared or stale
timer finds its id gone from the queue and does nothing, exactly as the
callback guard does). Effects record resolutions delivered to waiting
requesters, popups shown for the queue head, timer registrations, and
rejected submissions. -/

/-- Five minutes in milliseconds (PERMISSION_TIMEOUT). -/
def PERMISSION_TIMEOUT : Nat := 5 * 60 * 1000

/-- The queue size limit (MAX_QUEUE_SIZE). -/
def MAX_QUEUE_SIZE : Nat := 100

/-- A pending approval request held by the coordinator. -/
structure QueueItem where
  id : String
  createdAt : Nat
deriving DecidableEq

/-- The coordinator state: the FIFO queue of pending requests. -/
structure ServerState where
  queue : List QueueItem
deriving DecidableEq

/-- A human decision delivered to a pending request. -/
inductive PermissionDecision where
  | allow
  | deny
  | skip
deriving DecidableEq

/-- Observable effects of coordinator operations. -/
inductive ServerEffect where
  | resolved (id : String) (d : PermissionDecision)
  | shown (id : String)
  | rejected (status : Nat)
  | timerSet (id : String) (deadline : Nat)
deriving DecidableEq

/-- Find the first item with the given id and remove it (the findIndex
plus splice pair used by the coordinator). -/
def removeFirst : List QueueItem → String → Option (List QueueItem)
  | [], _ => none
  | x :: rest, i =>
    if x.id == i then some rest
    else (removeFirst rest i).map (fun q => x :: q)

/-- The show-current-item effect: the head of the queue, when any. -/
def shownHead (q : List QueueItem) : List ServerEffect :=
  match q.head? with
  | some h => [.shown h.id]
  | none => []

/-- Embeds handlePermission: reject with status 429 when the queue is
full; otherwise append the new item, register its five-minute timer and
show the current head. -/
def handlePermission (s : ServerState) (i : String) (now : Nat) :
    ServerState × List ServerEffect :=
  if MAX_QUEUE_SIZE ≤ s.queue.length then (s, [.rejected 429])
  else
    let q2 := s.queue ++ [⟨i, now⟩]
    (⟨q2⟩, .timerSet i (now + PERMISSION_TIMEOUT) :: shownHead q2)

/-- Embeds respondToPermission: find the item by id (no-op when absent),
clear its timer, resolve it with the decision and remove it. -/
def respondToPermission (s : ServerState) (i : String)
    (d : PermissionDecision) : ServerState × List ServerEffect :=
  match removeFirst s.queue i with
  | none => (s, [])
  | some q2 => (⟨q2⟩, [.resolved i d])

/-- Embeds the timeout callback registered by handlePermission: if the
id is still queued, resolve it with deny, remove it, and show the next
head when the queue is non-empty. -/
def timerFire (s : ServerState) (i : String) : ServerState × List ServerEffect :=
  match removeFirst s.queue i with
  | none => (s, [])
  | some q2 => (⟨q2⟩, .resolved i .deny :: shownHead q2)

/-- Embeds stop: resolve every pending request with deny and clear the
queue. -/
def stopServer (s : ServerState) : ServerState × List ServerEffect :=
  (⟨[]⟩, s.queue.map (fun it => .resolved it.id .deny))

/-- The coordinator operations. -/
inductive ServerOp where
  | permission (i : String) (now : Nat)
  | respond (i : String) (d : PermissionDecision)
  | timerExpire (i : String)
  | stop

/-- One coordinator step. -/
def stepServer (s : ServerState) : ServerOp → ServerState × List ServerEffect
  | .permission i now => handlePermission s i now
  | .respond i d => respondToPermission s i d
  | .timerExpire i => timerFire s i
  | .stop => stopServer s

/-! ### Spec-side definitions for refinement comparison -/

/-- Spec-side escaping, following the words of the specification for the
glob rule: escape ALL regex metacharacters except the star. In contrast
to the escape set of the hook source, this set contains the question
mark. -/
def escapeAllMeta : List Char → List Char
  | [] => []
  | c :: rest =>
    if isRegexMeta c || c == '?' then '\\' :: c :: escapeAllMeta rest
    else c :: escapeAllMeta rest

/-- Spec-side glob match, following the words of the specification:
escape all regex metacharacters except the star, collapse each run of
stars into a single dot-star, anchor the result at both ends and test
the command against it. -/
def specGlobMatches (pat cmd : List Char) : Bool :=
  match lexRegex (collapseStars (escapeAllMeta pat)) [] with
  | some items => rmatch items cmd
  | none => false

/-! ### Concrete tree-sitter outputs used as test inputs

Modelled from the spec: the tree-sitter-bash grammar is an external
library (not part of this repository), so its output on the two concrete
commands below is modelled after the parse shapes the specification
describes (a command node carrying leading variable_assignment children
for an assignment-prefixed command, and a plain command node with a
command_name child and word arguments otherwise). -/

/-- Modelled from the spec: the parse tree of the command
FOO=bar npm test (a command node with a leading variable_assignment
child, a command_name child carrying the name field, and a word
argument). -/
def assignTree : TSNode :=
  .node "program" true none "FOO=bar npm test"
    [ .node "command" true none "FOO=bar npm test"
        [ .node "variable_assignment" true none "FOO=bar"
            [ .node "variable_name" true (some "name") "FOO" [],
              .node "word" true (some "value") "bar" [] ],
          .node "command_name" true (some "name") "npm"
            [ .node "word" true none "npm" [] ],
          .node "word" true (some "argument") "test" [] ] ]

/-- Modelled from the spec: the parse tree of the command echo hi. -/
def echoTree : TSNode :=
  .node "program" true none "echo hi"
    [ .node "command" true none "echo hi"
        [ .node "command_name" true (some "name") "echo"
            [ .node "word" true none "echo" [] ],
          .node "word" true (some "argument") "hi" [] ] ]

/-- A stub parser returning the modelled tree for FOO=bar npm test with
no grammar error. -/
def assignParse : BashParse := fun _ => (assignTree, false)

/-- A stub parser returning the modelled tree for echo hi with no
grammar error. -/
def echoParse : BashParse := fun _ => (echoTree, false)

/-! ### Helper lemmas -/

/-- A character whose containment test is false is not a member. -/
theorem not_mem_of_contains_eq_false {l : List Char} {a : Char}
    (h : l.contains a = false) : a ∉ l := by
  intro hm
  have h2 := List.elem_iff.mpr hm
  exact absurd (h2.symm.trans h) (by simp)

/-- A list ending in colon star contains a star. -/
theorem star_mem_of_colon_star_suffix {l : List Char}
    (h : (([':', '*'] : List Char).isSuffixOf l) = true) : '*' ∈ l := by
  rw [List.isSuffixOf_iff_suffix] at h
  obtain ⟨t, rfl⟩ := h
  simp

/-- On question-mark-free input the spec-side escaping and the escaping
of the hook source agree. -/
theorem escapeAllMeta_eq_escape (cs : List Char) (h : '?' ∉ cs) :
    escapeAllMeta cs = escapeRegexChars cs := by
  induction cs with
  | nil => rfl
  | cons c rest ih =>
    rw [List.mem_cons, not_or] at h
    obtain ⟨h1, h2⟩ := h
    have hb : (c == '?') = false := beq_eq_false_iff_ne.mpr (fun hc => h1 hc.symm)
    simp only [escapeAllMeta, escapeRegexChars, hb, Bool.or_false, ih h2]

/-! ### Claim theorems -/

/-- Claim C5: when the tree-sitter parser could not be initialized,
parseAndExtractCommands returns exactly the whole input as one opaque
sub-command with the unresolvable flag forced true. -/
theorem claim5_parser_unavailable (command : String) :
    parseAndExtractCommands none command =
      ⟨[command], true⟩ := rfl

/-- Claim C1: whenever extraction reports an unresolvable construct,
matchesCommandPattern in all mode returns false, the unmatched-commands
shortcut cannot fire (its unresolvable side is true), and the resolver
verdict is never an automatic allow. -/
theorem claim1_unresolvable_conservative (pr : Option BashParse)
    (command : String) (deny ask allow : List String)
    (h : (parseAndExtractCommands pr command).hasUnresolvable = true) :
    matchesCommandPattern pr command allow .all = false ∧
    (extractUnmatchedCommands pr command allow).2 = true ∧
    resolveBashPermission pr command deny ask allow ≠ Verdict.autoAllow := by
  have hall : ∀ ps : List String,
      matchesCommandPattern pr command ps .all = false := by
    intro ps
    simp only [matchesCommandPattern, h, if_true, ite_self]
  have hu : (extractUnmatchedCommands pr command allow).2 = true := by
    simp only [extractUnmatchedCommands, h]
  refine ⟨hall allow, hu, ?_⟩
  unfold resolveBashPermission
  cases hd : matchesCommandPattern pr command deny .any
  · cases ha : matchesCommandPattern pr command ask .any
    · simp [hall allow, hu]
    · simp [hu]
  · simp

/-- Claim C2: with a non-empty extraction, any mode matches exactly when
some extracted sub-command matches, and all mode matches only when every
extracted sub-command matches. -/
theorem claim2_any_all (pr : Option BashParse) (command : String)
    (patterns : List String)
    (h : (parseAndExtractCommands pr command).commands ≠ []) :
    (matchesCommandPattern pr command patterns .any = true ↔
      ∃ c ∈ (parseAndExtractCommands pr command).commands,
        matchesSingleCommand c patterns = true) ∧
    (matchesCommandPattern pr command patterns .all = true →
      ∀ c ∈ (parseAndExtractCommands pr command).commands,
        matchesSingleCommand c patterns = true) := by
  have hne : (parseAndExtractCommands pr command).commands.isEmpty = false := by
    cases hc : (parseAndExtractCommands pr command).commands
    · exact absurd hc h
    · rfl
  constructor
  · simp [matchesCommandPattern, hne, List.any_eq_true]
  · intro hall
    simp only [matchesCommandPattern, hne, Bool.false_eq_true, if_false] at hall
    cases hu : (parseAndExtractCommands pr command).hasUnresolvable
    · rw [hu] at hall
      simp only [Bool.false_eq_true, if_false, List.all_eq_true] at hall
      exact hall
    · rw [hu] at hall
      simp at hall

/-- Claim C4: a command that is not denied but matches an ask pattern
never resolves to an automatic allow, whatever the allow list covers;
the verdict is needs-approval carrying the ask flag. -/
theorem claim4_ask_blocks (pr : Option BashParse) (command : String)
    (deny ask allow : List String)
    (hnd : matchesCommandPattern pr command deny .any = false)
    (hask : matchesCommandPattern pr command ask .any = true) :
    resolveBashPermission pr command deny ask allow =
      Verdict.needsApproval (extractUnmatchedCommands pr command allow).1
        (extractUnmatchedCommands pr command allow).2 true ∧
    resolveBashPermission pr command deny ask allow ≠ Verdict.autoAllow := by
  have h1 : resolveBashPermission pr command deny ask allow =
      Verdict.needsApproval (extractUnmatchedCommands pr command allow).1
        (extractUnmatchedCommands pr command allow).2 true := by
    unfold resolveBashPermission
    simp [hnd, hask]
  exact ⟨h1, by rw [h1]; simp⟩

/-- Claim C6 (counterexample): the hook leaves the question mark
unescaped, so on the pattern ab question-mark star the source matcher
accepts the command ac while the procedure stated by the claim (escape
all metacharacters except star) rejects it. -/
theorem claim6_counterexample :
    matchesSingleCommand "ac" ["ab?*"] = true ∧
    specGlobMatches ("ab?*" : String).data (normalizeCommand "ac").data = false :=
  ⟨by decide, by decide⟩

/-- Claim C6 (amended): for a pattern that contains a star, does not end
in colon star and contains no question mark, the source matcher decides
the glob branch exactly by the procedure of the claim (escape the
metacharacters of the source escape set, collapse star runs, anchor,
test against the env-stripped command); the question mark is the one
metacharacter the source does not escape. -/
theorem claim6_glob_rule (p cmd : String)
    (h1 : p.data.contains '*' = true)
    (h2 : (([':', '*'] : List Char).isSuffixOf p.data) = false)
    (h3 : p.data.contains '?' = false) :
    matchesSingleCommand cmd [p] =
      specGlobMatches p.data (normalizeCommand cmd).data := by
  have h3m : '?' ∉ p.data := not_mem_of_contains_eq_false h3
  have hstep : matchesSingleCommand cmd [p] =
      matchesOnePattern (normalizeCommand cmd).data p.data := by
    simp [matchesSingleCommand]
  rw [hstep]
  unfold matchesOnePattern
  rw [h2]
  simp only [Bool.false_eq_true, if_false, h1, if_true]
  unfold globTest specGlobMatches
  rw [escapeAllMeta_eq_escape p.data h3m]

/-- Claim C7 (counterexample): for the command FOO=bar npm test (parsed
with the modelled tree-sitter output) the only unmatched entry reported
against an empty allow list is npm test: the assignment text FOO=bar is
not preserved in the report. -/
theorem claim7_counterexample :
    extractUnmatchedCommands (some assignParse) "FOO=bar npm test" [] =
      (["npm test"], false) ∧
    ("npm test" : String) ≠ "FOO=bar npm test" ∧
    ¬ ((("FOO=" : String).data).isPrefixOf (("npm test" : String).data)) :=
  ⟨by decide, by decide, by decide⟩

/-- Claim C7 (amended): the unmatched report returns the extracted
sub-command strings verbatim, filtered by the env-stripped match; the
AST walk itself already removes variable_assignment prefixes from
collected command text, so report entries do not carry the original
leading assignments; only in the parser-unavailable fallback is the raw
input (assignments included) the single reported sub-command. -/
theorem claim7_amended (pr : Option BashParse) (command : String)
    (allowPatterns : List String) :
    extractUnmatchedCommands pr command allowPatterns =
      ((parseAndExtractCommands pr command).commands.filter
        (fun c => !(matchesSingleCommand c allowPatterns)),
       (parseAndExtractCommands pr command).hasUnresolvable) ∧
    (∀ c ps, matchesSingleCommand c ps =
      ps.any (fun pat => matchesOnePattern (normalizeCommand c).data pat.data)) ∧
    extractCommandsFromAST assignTree = ⟨["npm test"], false⟩ ∧
    extractUnmatchedCommands none "FOO=bar npm test" [] =
      (["FOO=bar npm test"], true) :=
  ⟨rfl, fun _ _ => rfl, by decide, by decide⟩

/-- Claim C8: for a pattern without a star the matcher returns true
exactly when the env-stripped command equals the pattern or starts with
the pattern followed by a single space; git status matches
git status --short, while a tab or a letter after the pattern does not
match. -/
theorem claim8_exact_match (p cmd : String)
    (h : p.data.contains '*' = false) :
    (matchesSingleCommand cmd [p] =
      ((normalizeCommand cmd).data == p.data ||
        (p.data ++ [' ']).isPrefixOf (normalizeCommand cmd).data)) ∧
    matchesSingleCommand "git status --short" ["git status"] = true ∧
    matchesSingleCommand "git status\tmore" ["git status"] = false ∧
    matchesSingleCommand "git statusx" ["git status"] = false := by
  refine ⟨?_, by decide, by decide, by decide⟩
  have hs : (([':', '*'] : List Char).isSuffixOf p.data) = false := by
    cases hx : (([':', '*'] : List Char).isSuffixOf p.data)
    · rfl
    · exact absurd (star_mem_of_colon_star_suffix hx)
        (not_mem_of_contains_eq_false h)
  have hstep : matchesSingleCommand cmd [p] =
      matchesOnePattern (normalizeCommand cmd).data p.data := by
    simp [matchesSingleCommand]
  rw [hstep]
  unfold matchesOnePattern
  rw [hs, h]
  simp

/-- mergeLayer never changes the bypass flag. -/
theorem mergeLayer_bypass (m : MergedPolicy) (s : SettingsFile) :
    (mergeLayer m s).bypassPermissions = m.bypassPermissions := by
  obtain ⟨bp, perms⟩ := s
  cases perms with
  | none => rfl
  | some p =>
    obtain ⟨oa, od, oq, dm⟩ := p
    cases oa <;> cases od <;> cases oq <;> rfl

/-- The merged bypass flag is the disjunction of the bypass indicators
of the global and project-local files; the project-shared file plays no
part. -/
theorem load_bypass (g pS l : Option SettingsFile) :
    (loadPermissionSettings g pS l).bypassPermissions =
      ((match g with | some gs => isBypassPermissions gs | none => false) ||
       (match l with | some ls => isBypassPermissions ls | none => false)) := by
  unfold loadPermissionSettings
  cases g with
  | none =>
    cases pS with
    | none =>
      cases l with
      | none => rfl
      | some ls =>
        simp only [mergeLayer_bypass]
        cases hls : isBypassPermissions ls <;> simp
    | some ps =>
      cases l with
      | none => simp [mergeLayer_bypass]
      | some ls =>
        simp only [mergeLayer_bypass]
        cases hls : isBypassPermissions ls <;> simp [mergeLayer_bypass]
  | some gs =>
    cases pS with
    | none =>
      cases l with
      | none =>
        simp only [mergeLayer_bypass]
        cases hgs : isBypassPermissions gs <;> simp
      | some ls =>
        simp only [mergeLayer_bypass]
        cases hgs : isBypassPermissions gs <;>
          cases hls : isBypassPermissions ls <;> simp [mergeLayer_bypass]
    | some ps =>
      cases l with
      | none =>
        simp only [mergeLayer_bypass]
        cases hgs : isBypassPermissions gs <;> simp [mergeLayer_bypass]
      | some ls =>
        simp only [mergeLayer_bypass]
        cases hgs : isBypassPermissions gs <;>
          cases hls : isBypassPermissions ls <;> simp [mergeLayer_bypass]

/-- Claim C3: the merged bypass flag is insensitive to the
project-shared settings file, and it is true exactly when the global
file or the project-local file carries a bypass indicator. -/
theorem claim3_projectshared_bypass (g l pS pS2 : Option SettingsFile) :
    (loadPermissionSettings g pS l).bypassPermissions =
      (loadPermissionSettings g pS2 l).bypassPermissions ∧
    ((loadPermissionSettings g pS l).bypassPermissions = true ↔
      ((∃ gs, g = some gs ∧ isBypassPermissions gs = true) ∨
       (∃ ls, l = some ls ∧ isBypassPermissions ls = true))) := by
  constructor
  · rw [load_bypass, load_bypass]
  · rw [load_bypass]
    cases g <;> cases l <;> simp

/-- removeFirst finds the first item with the given id. -/
theorem removeFirst_append (pre post : List QueueItem) (it : QueueItem)
    (hpre : ∀ x ∈ pre, x.id ≠ it.id) :
    removeFirst (pre ++ it :: post) it.id = some (pre ++ post) := by
  induction pre with
  | nil => simp [removeFirst]
  | cons x rest ih =>
    have hx : (x.id == it.id) = false :=
      beq_eq_false_iff_ne.mpr (hpre x (by simp))
    simp only [List.cons_append, removeFirst, hx, Bool.false_eq_true, if_false,
      List.append_eq]
    rw [ih (fun y hy => hpre y (by simp [hy]))]
    rfl

/-- removeFirst misses when no queued item carries the id. -/
theorem removeFirst_none (q : List QueueItem) (i : String)
    (h : ∀ x ∈ q, x.id ≠ i) : removeFirst q i = none := by
  induction q with
  | nil => rfl
  | cons x rest ih =>
    have hx : (x.id == i) = false :=
      beq_eq_false_iff_ne.mpr (h x (by simp))
    simp [removeFirst, hx, ih (fun y hy => h y (by simp [hy]))]

/-- removeFirst shortens the queue by one when it hits. -/
theorem removeFirst_length (q : List QueueItem) (i : String)
    (q2 : List QueueItem) (h : removeFirst q i = some q2) :
    q2.length + 1 = q.length := by
  induction q generalizing q2 with
  | nil => simp [removeFirst] at h
  | cons x rest ih =>
    by_cases hx : (x.id == i) = true
    · simp only [removeFirst, hx, if_true, Option.some.injEq] at h
      subst h
      rfl
    · rw [Bool.not_eq_true] at hx
      simp only [removeFirst, hx, Bool.false_eq_true, if_false,
        Option.map_eq_some'] at h
      obtain ⟨q3, h3, rfl⟩ := h
      have := ih q3 h3
      simp
      omega

/-- Claim C9: a pending request still queued when its timer fires is
resolved with deny and removed, and the next head (when any) is shown;
a request decided first is removed by the decision, after which its
timer callback finds nothing and does nothing; handlePermission
registers the timer at submission time plus PERMISSION_TIMEOUT, which is
five minutes in milliseconds. -/
theorem claim9_timeout (pre post : List QueueItem) (it : QueueItem)
    (d : PermissionDecision) (s2 : ServerState) (i2 : String) (now2 : Nat)
    (hpre : ∀ x ∈ pre, x.id ≠ it.id) (hpost : ∀ x ∈ post, x.id ≠ it.id)
    (hroom : s2.queue.length < MAX_QUEUE_SIZE) :
    (timerFire ⟨pre ++ it :: post⟩ it.id).1.queue = pre ++ post ∧
    (timerFire ⟨pre ++ it :: post⟩ it.id).2 =
      ServerEffect.resolved it.id .deny :: shownHead (pre ++ post) ∧
    respondToPermission ⟨pre ++ it :: post⟩ it.id d =
      (⟨pre ++ post⟩, [ServerEffect.resolved it.id d]) ∧
    timerFire ⟨pre ++ post⟩ it.id = (⟨pre ++ post⟩, []) ∧
    ServerEffect.timerSet i2 (now2 + PERMISSION_TIMEOUT) ∈
      (handlePermission s2 i2 now2).2 ∧
    PERMISSION_TIMEOUT = 5 * 60 * 1000 := by
  have h1 := removeFirst_append pre post it hpre
  have h2 : removeFirst (pre ++ post) it.id = none := by
    refine removeFirst_none _ _ (fun x hx => ?_)
    rcases List.mem_append.mp hx with hm | hm
    · exact hpre x hm
    · exact hpost x hm
  refine ⟨?_, ?_, ?_, ?_, ?_, rfl⟩
  · simp [timerFire, h1]
  · simp [timerFire, h1]
  · simp [respondToPermission, h1]
  · simp [timerFire, h2]
  · have hn : ¬ (MAX_QUEUE_SIZE ≤ s2.queue.length) := by omega
    simp [handlePermission, hn]

/-- Claim C10: every coordinator operation preserves the queue bound of
MAX_QUEUE_SIZE items, and a submission arriving at a full queue is
rejected with status 429 and not enqueued. -/
theorem claim10_queue_bounded (s : ServerState) (op : ServerOp)
    (i2 : String) (now2 : Nat)
    (h : s.queue.length ≤ MAX_QUEUE_SIZE) :
    (stepServer s op).1.queue.length ≤ MAX_QUEUE_SIZE ∧
    (MAX_QUEUE_SIZE ≤ s.queue.length →
      stepServer s (.permission i2 now2) = (s, [ServerEffect.rejected 429])) := by
  constructor
  · cases op with
    | permission i now =>
      by_cases hfull : MAX_QUEUE_SIZE ≤ s.queue.length
      · simpa [stepServer, handlePermission, hfull] using h
      · simp only [stepServer, handlePermission, hfull, if_false]
        simp only [List.length_append, List.length_cons, List.length_nil]
        omega
    | respond i d =>
      cases hr : removeFirst s.queue i with
      | none => simpa [stepServer, respondToPermission, hr] using h
      | some q2 =>
        have hl := removeFirst_length _ _ _ hr
        simp only [stepServer, respondToPermission, hr]
        omega
    | timerExpire i =>
      cases hr : removeFirst s.queue i with
      | none => simpa [stepServer, timerFire, hr] using h
      | some q2 =>
        have hl := removeFirst_length _ _ _ hr
        simp only [stepServer, timerFire, hr]
        omega
    | stop =>
      simp [stepServer, stopServer]
  · intro hfull
    simp [stepServer, handlePermission, hfull]


/-! ### Witnesses -/

/-- Witness for claim C1 at the parser-unavailable fallback, where the
extraction is unresolvable. -/
theorem claim1_witness :
    (parseAndExtractCommands none "rm -rf /").hasUnresolvable = true ∧
    (matchesCommandPattern none "rm -rf /" ["rm:*"] .all = false ∧
     (extractUnmatchedCommands none "rm -rf /" ["rm:*"]).2 = true ∧
     resolveBashPermission none "rm -rf /" [] [] ["rm:*"] ≠ Verdict.autoAllow) :=
  ⟨by decide,
   claim1_unresolvable_conservative none "rm -rf /" [] [] ["rm:*"] (by decide)⟩

/-- Witness for claim C2 at a one-command extraction. -/
theorem claim2_witness :
    (parseAndExtractCommands none "git status").commands ≠ [] ∧
    ((matchesCommandPattern none "git status" ["git status"] .any = true ↔
       ∃ c ∈ (parseAndExtractCommands none "git status").commands,
         matchesSingleCommand c ["git status"] = true) ∧
     (matchesCommandPattern none "git status" ["git status"] .all = true →
       ∀ c ∈ (parseAndExtractCommands none "git status").commands,
         matchesSingleCommand c ["git status"] = true)) :=
  ⟨by decide, claim2_any_all none "git status" ["git status"] (by decide)⟩

/-- Witness for claim C4: echo hi is not denied, is ask-listed through
echo colon star, every sub-command matches the allow list and the
extraction is resolvable, yet the verdict is needs-approval. -/
theorem claim4_witness :
    (matchesCommandPattern (some echoParse) "echo hi" [] .any = false ∧
     matchesCommandPattern (some echoParse) "echo hi" ["echo:*"] .any = true ∧
     matchesCommandPattern (some echoParse) "echo hi" ["echo hi"] .all = true ∧
     (parseAndExtractCommands (some echoParse) "echo hi").hasUnresolvable = false) ∧
    (resolveBashPermission (some echoParse) "echo hi" [] ["echo:*"] ["echo hi"] =
       Verdict.needsApproval
         (extractUnmatchedCommands (some echoParse) "echo hi" ["echo hi"]).1
         (extractUnmatchedCommands (some echoParse) "echo hi" ["echo hi"]).2 true ∧
     resolveBashPermission (some echoParse) "echo hi" [] ["echo:*"] ["echo hi"] ≠
       Verdict.autoAllow) :=
  ⟨⟨by decide, by decide, by decide, by decide⟩,
   claim4_ask_blocks (some echoParse) "echo hi" [] ["echo:*"] ["echo hi"]
     (by decide) (by decide)⟩

/-- Witness for the amended claim C6 at a star pattern free of question
marks. -/
theorem claim6_glob_rule_witness :
    (("git *" : String).data.contains '*' = true ∧
     (([':', '*'] : List Char).isSuffixOf ("git *" : String).data) = false ∧
     ("git *" : String).data.contains '?' = false) ∧
    matchesSingleCommand "git add x" ["git *"] =
      specGlobMatches ("git *" : String).data
        (normalizeCommand "git add x").data :=
  ⟨⟨by decide, by decide, by decide⟩,
   claim6_glob_rule "git *" "git add x" (by decide) (by decide) (by decide)⟩

/-- Witness for claim C8 at a starless pattern and an env-prefixed
command. -/
theorem claim8_witness :
    ("npm test" : String).data.contains '*' = false ∧
    ((matchesSingleCommand "NODE_ENV=dev npm test --ci" ["npm test"] =
       ((normalizeCommand "NODE_ENV=dev npm test --ci").data ==
           ("npm test" : String).data ||
         (("npm test" : String).data ++ [' ']).isPrefixOf
           (normalizeCommand "NODE_ENV=dev npm test --ci").data)) ∧
     matchesSingleCommand "git status --short" ["git status"] = true ∧
     matchesSingleCommand "git status\tmore" ["git status"] = false ∧
     matchesSingleCommand "git statusx" ["git status"] = false) :=
  ⟨by decide,
   claim8_exact_match "npm test" "NODE_ENV=dev npm test --ci" (by decide)⟩

/-- Witness for claim C9 on a two-item queue. -/
theorem claim9_witness :
    ((∀ x ∈ ([] : List QueueItem), x.id ≠ "a") ∧
     (∀ x ∈ [(⟨"b", 0⟩ : QueueItem)], x.id ≠ "a") ∧
     (⟨[]⟩ : ServerState).queue.length < MAX_QUEUE_SIZE) ∧
    ((timerFire ⟨[⟨"a", 0⟩, ⟨"b", 0⟩]⟩ "a").1.queue = [⟨"b", 0⟩] ∧
     (timerFire ⟨[⟨"a", 0⟩, ⟨"b", 0⟩]⟩ "a").2 =
       ServerEffect.resolved "a" .deny :: shownHead [⟨"b", 0⟩] ∧
     respondToPermission ⟨[⟨"a", 0⟩, ⟨"b", 0⟩]⟩ "a" .allow =
       (⟨[⟨"b", 0⟩]⟩, [ServerEffect.resolved "a" .allow]) ∧
     timerFire ⟨[⟨"b", 0⟩]⟩ "a" = (⟨[⟨"b", 0⟩]⟩, []) ∧
     ServerEffect.timerSet "c" (7 + PERMISSION_TIMEOUT) ∈
       (handlePermission ⟨[]⟩ "c" 7).2 ∧
     PERMISSION_TIMEOUT = 5 * 60 * 1000) :=
  ⟨⟨by decide, by decide, by decide⟩,
   claim9_timeout [] [⟨"b", 0⟩] ⟨"a", 0⟩ .allow ⟨[]⟩ "c" 7
     (by decide) (by decide) (by decide)⟩

/-- Witness for claim C10 at a full queue of one hundred items. -/
theorem claim10_witness :
    (⟨List.replicate 100 ⟨"q", 0⟩⟩ : ServerState).queue.length ≤ MAX_QUEUE_SIZE ∧
    ((stepServer ⟨List.replicate 100 ⟨"q", 0⟩⟩
        (.permission "p" 3)).1.queue.length ≤ MAX_QUEUE_SIZE ∧
     (MAX_QUEUE_SIZE ≤ (⟨List.replicate 100 ⟨"q", 0⟩⟩ : ServerState).queue.length →
       stepServer ⟨List.replicate 100 ⟨"q", 0⟩⟩ (.permission "p" 3) =
         (⟨List.replicate 100 ⟨"q", 0⟩⟩, [ServerEffect.rejected 429]))) :=
  ⟨by decide,
   claim10_queue_bounded ⟨List.replicate 100 ⟨"q", 0⟩⟩ (.permission "p" 3)
     "p" 3 (by decide)⟩

end ClaudeWatch
